import Mathlib

/-!
Verification development for the gai-google adapter: a shallow embedding of
the schema converters (internal/schema/convert.go), the request assembler and
the streaming response reassembler (chat_complete.go), with theorems about
their behaviour.
-/

namespace GaiGoogle

/-- JSON values, modelling Go `any` values produced by `encoding/json`
(`map[string]any`, `[]any`, `string`, numbers, booleans, `nil`).
Go maps are modelled as association lists; `List.lookup` models map indexing. -/
inductive Json where
  | null : Json
  | bool (b : Bool) : Json
  | num (n : Int) : Json
  | str (s : String) : Json
  | arr (elems : List Json) : Json
  | obj (fields : List (String × Json)) : Json

/-- The backend schema type enum (`genai.Type`). The Go zero value of the
string-typed enum is modelled as `unspecified`. -/
inductive GenaiType where
  | unspecified : GenaiType
  | string : GenaiType
  | number : GenaiType
  | integer : GenaiType
  | boolean : GenaiType
  | array : GenaiType
  | object : GenaiType
deriving DecidableEq, Repr

/-- The neutral schema type enum (`gai.SchemaType`). The Go zero value of the
string-typed enum (absent / unrecognized type) is modelled as `unspecified`. -/
inductive GaiType where
  | unspecified : GaiType
  | string : GaiType
  | number : GaiType
  | integer : GaiType
  | boolean : GaiType
  | array : GaiType
  | object : GaiType
deriving DecidableEq, Repr

/-- The constraint fields shared by `gai.Schema` and `genai.Schema`
(description, default, enum, example, format, min/max items, min/max length,
min/max properties, numeric bounds, nullable, pattern, property ordering,
title). Grouped in one structure because both Go structs declare the same
fields with the same types; the converter still copies them one by one.
Go string fields have zero value `""`; pointer fields are `Option`.
The Go fields `Default` and `Example` are rendered as `defaultValue` and
`exampleValue` because those words are reserved in Lean. -/
structure Constraints where
  description : String
  format : String
  pattern : String
  title : String
  enum : List String
  propertyOrdering : List String
  defaultValue : Option Json
  exampleValue : Option Json
  maximum : Option Int
  minimum : Option Int
  maxItems : Option Int
  minItems : Option Int
  maxLength : Option Int
  minLength : Option Int
  maxProperties : Option Int
  minProperties : Option Int
  nullable : Option Bool

/-- The Go zero value of the constraint fields. -/
def Constraints.zero : Constraints :=
  { description := "", format := "", pattern := "", title := "", enum := [],
    propertyOrdering := [], defaultValue := none, exampleValue := none,
    maximum := none, minimum := none, maxItems := none, minItems := none,
    maxLength := none, minLength := none, maxProperties := none,
    minProperties := none, nullable := none }

/-- The backend schema struct (`genai.Schema`). `properties` is `Option`
because the Go map field distinguishes nil from an (empty) allocated map;
`required` models the Go slice with `[]` for nil. -/
inductive GSchema where
  | mk (type : GenaiType) (properties : Option (List (String × GSchema)))
      (required : List String) (items : Option GSchema)
      (anyOf : Option (List GSchema)) (constraints : Constraints) : GSchema

def GSchema.type : GSchema → GenaiType
  | .mk t _ _ _ _ _ => t

def GSchema.properties : GSchema → Option (List (String × GSchema))
  | .mk _ p _ _ _ _ => p

def GSchema.required : GSchema → List String
  | .mk _ _ r _ _ _ => r

def GSchema.items : GSchema → Option GSchema
  | .mk _ _ _ i _ _ => i

def GSchema.anyOf : GSchema → Option (List GSchema)
  | .mk _ _ _ _ a _ => a

def GSchema.constraints : GSchema → Constraints
  | .mk _ _ _ _ _ c => c

/-- Replace the description field, modelling `schema.Description = desc`. -/
def GSchema.withDescription : GSchema → String → GSchema
  | .mk t p r i a c, d => .mk t p r i a { c with description := d }

/-- The neutral response schema (`gai.Schema`): recursive tagged structure
over the base types plus object properties, a required list, an optional
array item schema and an optional any-of list, plus the constraint fields. -/
inductive GaiSchema where
  | mk (type : GaiType) (properties : List (String × GaiSchema))
      (required : List String) (items : Option GaiSchema)
      (anyOf : Option (List GaiSchema)) (constraints : Constraints) : GaiSchema

def GaiSchema.type : GaiSchema → GaiType
  | .mk t _ _ _ _ _ => t

def GaiSchema.properties : GaiSchema → List (String × GaiSchema)
  | .mk _ p _ _ _ _ => p

def GaiSchema.required : GaiSchema → List String
  | .mk _ _ r _ _ _ => r

def GaiSchema.items : GaiSchema → Option GaiSchema
  | .mk _ _ _ i _ _ => i

def GaiSchema.anyOf : GaiSchema → Option (List GaiSchema)
  | .mk _ _ _ _ a _ => a

def GaiSchema.constraints : GaiSchema → Constraints
  | .mk _ _ _ _ _ c => c

/-- The loosely-typed tool parameter schema (`gai.ToolSchema`): the Go
`Properties any` field is `none` for nil, otherwise a JSON value. -/
structure ToolSchema where
  properties : Option Json

/-- A neutral tool descriptor (`gai.Tool`): name, description, and the
loosely-typed parameter schema. -/
structure Tool where
  name : String
  description : String
  schema : ToolSchema

/-- The backend function declaration (`genai.FunctionDeclaration`). -/
structure FunctionDeclaration where
  name : String
  description : String
  parameters : GSchema

/-- The backend tool group (`genai.Tool`), holding function declarations. -/
structure GTool where
  functionDeclarations : List FunctionDeclaration

/-- Error wrapping, modelling `fmt.Errorf("<context>: %w", err)`. -/
def wrapErr {α : Type} (ctx : String) : Except String α → Except String α
  | .ok a => .ok a
  | .error e => .error (ctx ++ e)

theorem sizeOf_lookup {l : List (String × Json)} {k : String} {v : Json}
    (h : List.lookup k l = some v) : sizeOf v < sizeOf l := by
  induction l with
  | nil => simp [List.lookup] at h
  | cons hd tl ih =>
    rw [List.lookup] at h
    by_cases hk : k = hd.1
    · have : hd.2 = v := by
        simp [hk] at h
        exact h
      subst this
      cases hd with
      | mk a b => simp; omega
    · have hb : (k == hd.1) = false := by
        simp [hk]
      rw [hb] at h
      have := ih h
      cases hd with
      | mk a b => simp at this ⊢; omega

mutual

/-- `ConvertProperty` from internal/schema/convert.go: converts a loosely
typed property definition (a JSON value) to a backend schema. A non-map value
errors; the `"type"` key is read as a string and switched over the six
recognized names, any other name defaulting to String and an absent or
non-string type leaving the Go zero value; `"items"` and nested
`"properties"` are recursed into; `"description"` is copied when present. -/
def ConvertProperty : Json → Except String GSchema
  | .obj propMap => do
      let base ←
        match List.lookup "type" propMap with
        | some (.str t) =>
          match t with
          | "string" => pure (GSchema.mk .string none [] none none .zero)
          | "number" => pure (GSchema.mk .number none [] none none .zero)
          | "integer" => pure (GSchema.mk .integer none [] none none .zero)
          | "boolean" => pure (GSchema.mk .boolean none [] none none .zero)
          | "array" =>
            match h2 : List.lookup "items" propMap with
            | some (.obj items) => do
                let itemSchema ← wrapErr "converting array items: "
                  (ConvertProperty (.obj items))
                pure (GSchema.mk .array none [] (some itemSchema) none .zero)
            | _ => pure (GSchema.mk .array none [] none none .zero)
          | "object" =>
            match h3 : List.lookup "properties" propMap with
            | some (.obj props) => do
                let subProps ← convertObjectProps props
                pure (GSchema.mk .object (some subProps) [] none none .zero)
            | _ => pure (GSchema.mk .object none [] none none .zero)
          | _ => pure (GSchema.mk .string none [] none none .zero)
        | _ => pure (GSchema.mk .unspecified none [] none none .zero)
      let desc :=
        match List.lookup "description" propMap with
        | some (.str d) => d
        | _ => ""
      pure (base.withDescription desc)
  | _ => .error "property is not a map"
termination_by j => sizeOf j
decreasing_by
  all_goals simp_wf
  all_goals
    first
      | omega
      | (have h9 := sizeOf_lookup h2; simp at h9; omega)
      | (have h9 := sizeOf_lookup h3; simp at h9; omega)

/-- The nested-object loop of `ConvertProperty`: converts each property in
the nested `"properties"` map, wrapping failures with the property name. -/
def convertObjectProps : List (String × Json) → Except String (List (String × GSchema))
  | [] => pure []
  | (name, subProp) :: rest => do
      let subSchema ← wrapErr ("converting object property " ++ name ++ ": ")
        (ConvertProperty subProp)
      let tail ← convertObjectProps rest
      pure ((name, subSchema) :: tail)
termination_by l => sizeOf l
decreasing_by
  all_goals simp_wf
  all_goals
    first
      | omega
      | (have h9 := sizeOf_lookup h2; simp at h9; omega)
      | (have h9 := sizeOf_lookup h3; simp at h9; omega)

end

/-- The property-conversion loop of `ConvertToolSchema`: converts each
property definition, wrapping failures with the property name. -/
def convertToolProps : List (String × Json) → Except String (List (String × GSchema))
  | [] => pure []
  | (name, prop) :: rest => do
      let propSchema ← wrapErr ("converting property " ++ name ++ ": ")
        (ConvertProperty prop)
      let tail ← convertToolProps rest
      pure ((name, propSchema) :: tail)

/-- The `"required"` extraction of `ConvertToolSchema`: the top-level
`"required"` value, when it is a JSON list, contributes its string elements;
anything else leaves the required list empty (Go nil slice). -/
def requiredOf (props : List (String × Json)) : List String :=
  match List.lookup "required" props with
  | some (.arr reqList) =>
      reqList.filterMap fun j =>
        match j with
        | .str s => some s
        | _ => none
  | _ => []

/-- `ConvertToolSchema` from internal/schema/convert.go: nil properties yield
an empty object schema; a JSON object with a top-level `"properties"` key
whose value is an object is treated as standard JSON-Schema (nested
properties plus top-level `"required"` strings); otherwise every top-level
key is a direct property definition. A properties value that is not a JSON
object fails the marshal/unmarshal canonicalization to a map
(`json.Unmarshal` of a non-object into `map[string]any` errors). -/
def ConvertToolSchema (schema : ToolSchema) : Except String GSchema :=
  match schema.properties with
  | none => .ok (GSchema.mk .object (some []) [] none none .zero)
  | some (.obj props) =>
    match List.lookup "properties" props with
    | some (.obj propsMap) => do
        let genaiProps ← convertToolProps propsMap
        pure (GSchema.mk .object (some genaiProps) (requiredOf props) none none .zero)
    | _ => do
        let genaiProps ← convertToolProps props
        pure (GSchema.mk .object (some genaiProps) [] none none .zero)
  | some _ => .error "unmarshaling properties"

/-- `ConvertToolToFunction` from internal/schema/convert.go: converts the
tool's schema (wrapping failures with "converting schema") and copies name
and description verbatim into a function declaration. -/
def ConvertToolToFunction (tool : Tool) : Except String FunctionDeclaration :=
  match wrapErr "converting schema: " (ConvertToolSchema tool.schema) with
  | .error e => .error e
  | .ok s => .ok ⟨tool.name, tool.description, s⟩

/-- The accumulation loop of `ConvertTools`: converts each tool in order,
wrapping the first failure with the offending tool's name and aborting. -/
def convertToolsLoop : List Tool → Except String (List FunctionDeclaration)
  | [] => pure []
  | tool :: rest => do
      let funcDecl ← wrapErr ("converting tool " ++ tool.name ++ ": ")
        (ConvertToolToFunction tool)
      let tail ← convertToolsLoop rest
      pure (funcDecl :: tail)

/-- `ConvertTools` from internal/schema/convert.go: converts every tool into
a function declaration and wraps all of them in a single backend tool group,
failing as a whole if any single tool fails. -/
def ConvertTools (tools : List Tool) : Except String (List GTool) :=
  match convertToolsLoop tools with
  | .error e => .error e
  | .ok funcDecls => .ok [⟨funcDecls⟩]

mutual

/-- `ConvertResponseSchema` from internal/schema/convert.go: structurally
recursive conversion of the strict neutral schema to the backend schema.
The type-specific branch maps the six base types, recursing into array items
(when present) and object properties (when non-empty, also copying the
required list), and defaults to String for an unspecified type; then every
constraint field is copied verbatim regardless of the resolved type; finally
a present any-of list is converted element-wise (an absent one is left
absent). -/
def ConvertResponseSchema : GaiSchema → Except String GSchema
  | .mk ty props req items anyOf cs => do
      let (rType, rProps, rRequired, rItems) ←
        match ty with
        | .string =>
            pure (GenaiType.string, none, [], (none : Option GSchema))
        | .number =>
            pure (GenaiType.number, none, [], none)
        | .integer =>
            pure (GenaiType.integer, none, [], none)
        | .boolean =>
            pure (GenaiType.boolean, none, [], none)
        | .array =>
            match items with
            | none => pure (GenaiType.array, none, [], none)
            | some itemSchema => do
                let converted ← wrapErr "converting array items: "
                  (ConvertResponseSchema itemSchema)
                pure (GenaiType.array, none, [], some converted)
        | .object =>
            if props.length > 0 then do
              let convertedProps ← convertResponseProps props
              pure (GenaiType.object, some convertedProps, req, none)
            else
              pure (GenaiType.object, none, req, none)
        | .unspecified =>
            pure (GenaiType.string, none, [], none)
      let rCs : Constraints :=
        { description := cs.description, defaultValue := cs.defaultValue,
          enum := cs.enum, exampleValue := cs.exampleValue, format := cs.format,
          maxItems := cs.maxItems, maxLength := cs.maxLength,
          maxProperties := cs.maxProperties, maximum := cs.maximum,
          minItems := cs.minItems, minLength := cs.minLength,
          minProperties := cs.minProperties, minimum := cs.minimum,
          nullable := cs.nullable, pattern := cs.pattern,
          propertyOrdering := cs.propertyOrdering, title := cs.title }
      let rAnyOf ←
        match anyOf with
        | none => pure none
        | some anyOfList => do
            let converted ← convertResponseAnyOf 0 anyOfList
            pure (some converted)
      pure (GSchema.mk rType rProps rRequired rItems rAnyOf rCs)
termination_by s => sizeOf s
decreasing_by
  all_goals simp_wf
  all_goals omega

/-- The properties loop of `ConvertResponseSchema`'s object branch: converts
each property, wrapping failures with the property name. -/
def convertResponseProps : List (String × GaiSchema) → Except String (List (String × GSchema))
  | [] => pure []
  | (name, prop) :: rest => do
      let propSchema ← wrapErr ("converting property " ++ name ++ ": ")
        (ConvertResponseSchema prop)
      let tail ← convertResponseProps rest
      pure ((name, propSchema) :: tail)
termination_by l => sizeOf l
decreasing_by
  all_goals simp_wf
  all_goals omega

/-- The any-of loop of `ConvertResponseSchema`: converts each sub-schema in
order, wrapping failures with the list index. -/
def convertResponseAnyOf (i : Nat) : List GaiSchema → Except String (List GSchema)
  | [] => pure []
  | sub :: rest => do
      let converted ← wrapErr ("converting anyOf[" ++ toString i ++ "]: ")
        (ConvertResponseSchema sub)
      let tail ← convertResponseAnyOf (i + 1) rest
      pure (converted :: tail)
termination_by l => sizeOf l
decreasing_by
  all_goals simp_wf
  all_goals omega

end

/-- The neutral message role (`gai.MessageRole`): the spec's closed role set
{user, model}. -/
inductive MessageRole where
  | user : MessageRole
  | model : MessageRole
deriving DecidableEq

/-- The backend content role (`genai.Role`). -/
inductive GRole where
  | user : GRole
  | model : GRole
deriving DecidableEq

/-- A neutral message part (`gai.MessagePart`): tagged union over text,
tool-call, tool-result and binary-data. Tool-call args model the JSON value
carried by the part's raw args bytes (an arg payload that is valid JSON but
not an object makes the map decode fail). A data part's byte stream is
modelled by the outcome of fully draining it (`io.ReadAll`): the bytes, or a
read error. -/
inductive MessagePart where
  | text (s : String) : MessagePart
  | toolCall (id name : String) (args : Json) : MessagePart
  | toolResult (id name : String) (content : String) (resultErr : Option String) : MessagePart
  | data (mimeType : String) (bytes : Except String (List Nat)) : MessagePart

/-- A neutral message (`gai.Message`): a role and ordered parts. -/
structure Message where
  role : MessageRole
  parts : List MessagePart

/-- A backend request part (`genai.Part`), as constructed by the request
assembler: text, function call, function response, or inline data. -/
inductive GPart where
  | text (s : String) : GPart
  | functionCall (id name : String) (args : List (String × Json)) : GPart
  | functionResponse (id name : String) (response : List (String × Json)) : GPart
  | inlineData (mimeType : String) (data : List Nat) : GPart

/-- A backend content turn (`genai.Content`): role plus ordered parts. -/
structure Content where
  role : GRole
  parts : List GPart

/-- The outcome of Go code that can return an error or panic: `err` models a
returned error value, `panicked` models a Go panic (a caller contract
violation in this adapter). -/
inductive GoFailure where
  | err (e : String) : GoFailure
  | panicked (msg : String) : GoFailure
deriving DecidableEq

/-- The role switch of the request assembler (chat_complete.go lines
117-124): user maps to the backend user role, model to the backend model
role. The `unknown role` panic arm is unreachable over the closed neutral
role set. -/
def roleOf : MessageRole → GRole
  | .user => .user
  | .model => .model

/-- The per-part switch of the request assembler (chat_complete.go lines
126-172): text is copied verbatim; tool-call args are decoded into a
key-value map (failing on a non-object payload, returned as a wrapped
error); tool-result builds the `output`/`error` payload, the error payload
replacing the output one entirely when the result carries an error; a data
part is drained and embedded inline, a read failure aborting with a wrapped
error. -/
def convertPart : MessagePart → Except GoFailure GPart
  | .text s => pure (.text s)
  | .toolCall id name args =>
      match args with
      | .obj argsMap => pure (.functionCall id name argsMap)
      | _ => .error (.err "error unmarshaling request tool call args")
  | .toolResult id name content resultErr =>
      let res : List (String × Json) :=
        match resultErr with
        | none => [("output", .str content)]
        | some e => [("error", .str e)]
      pure (.functionResponse id name res)
  | .data mimeType bytes =>
      match bytes with
      | .ok d => pure (.inlineData mimeType d)
      | .error e => .error (.err ("error reading request data: " ++ e))

/-- The parts loop of one message of the request assembler: convert every
part in order, appending to the content's part list. -/
def convertParts : List MessagePart → Except GoFailure (List GPart)
  | [] => pure []
  | p :: rest => do
      let gp ← convertPart p
      let tail ← convertParts rest
      pure (gp :: tail)

/-- One message of the request-assembly loop (chat_complete.go lines
114-175): map the role, then convert every part in order. -/
def convertMessage (m : Message) : Except GoFailure Content := do
  let parts ← convertParts m.parts
  pure ⟨roleOf m.role, parts⟩

/-- The message loop of the request assembler: convert every message in
order, appending each resulting content turn to the history. -/
def convertMessages : List Message → Except GoFailure (List Content)
  | [] => pure []
  | m :: rest => do
      let c ← convertMessage m
      let tail ← convertMessages rest
      pure (c :: tail)

/-- The history assembly of `ChatComplete` (chat_complete.go lines 61-67 and
113-179): panic on an empty message list or on a final message whose role is
not user; otherwise convert every message into a backend content turn, then
split off the last turn, whose parts become the live input of the streaming
send while the remaining turns form the history. -/
def buildHistory (messages : List Message) : Except GoFailure (List Content × List GPart) :=
  match messages.getLast? with
  | none => .error (.panicked "no messages")
  | some lastMessage =>
    if lastMessage.role ≠ .user then
      .error (.panicked "last message must have user role")
    else do
      let history ← convertMessages messages
      match history.getLast? with
      | none => .error (.panicked "index out of range")
      | some lastContent => pure (history.dropLast, lastContent.parts)

/-- The backend chunk usage metadata (`genai.GenerateContentResponseUsageMetadata`):
token counts carried by a streaming chunk. -/
structure UsageMetadata where
  promptTokenCount : Int
  candidatesTokenCount : Int
  thoughtsTokenCount : Int
  totalTokenCount : Int
deriving DecidableEq

/-- A backend response function call (`genai.FunctionCall`): optional id
(empty string when the backend omits it), name, and argument map. -/
structure FunctionCall where
  id : String
  name : String
  args : List (String × Json)

/-- A backend response part: text (possibly empty) and an optional function
call, matching the two checks the reassembler performs on each sub-part. -/
structure RespPart where
  text : String
  functionCall : Option FunctionCall

/-- A backend response candidate content: ordered sub-parts. -/
structure RespContent where
  parts : List RespPart

/-- A backend response candidate (`genai.Candidate`): optional content. -/
structure Candidate where
  content : Option RespContent

/-- A streaming response chunk (`genai.GenerateContentResponse`): candidates
plus optional usage metadata. -/
structure Chunk where
  candidates : List Candidate
  usageMetadata : Option UsageMetadata

/-- The neutral usage accumulator (`gai.ChatCompleteResponseUsage`): the
prompt, thoughts and completion token counters written by the reassembler
(chat_complete.go lines 205-209). -/
structure Usage where
  promptTokens : Int
  thoughtsTokens : Int
  completionTokens : Int
deriving DecidableEq

/-- Modelled from the spec: the neutral accumulator's fourth counter, total
tokens. The neutral layer's type lives outside this repository's source; the
spec fixes the relation "total = prompt + thoughts + completion", i.e. the
total is derived from the three stored counters. -/
def Usage.totalTokens (u : Usage) : Int :=
  u.promptTokens + u.thoughtsTokens + u.completionTokens

/-- The usage update of the reassembler (chat_complete.go lines 204-215): a
chunk carrying usage metadata overwrites the accumulator's counters with the
chunk's values; a chunk without usage metadata leaves it untouched. -/
def updateUsage (u : Usage) (c : Chunk) : Usage :=
  match c.usageMetadata with
  | none => u
  | some um =>
      { promptTokens := um.promptTokenCount,
        thoughtsTokens := um.thoughtsTokenCount,
        completionTokens := um.candidatesTokenCount }

/-- Modelled from the spec: the guard that skips a chunk carrying no
candidate content ("If the chunk carries no candidate content, skip to the
next chunk (this is normal, not an error)"). The guard's condition line is
not present in the source file (only its `continue` body is); the chunk
carries candidate content exactly when the candidate list is non-empty and
the first candidate's content is non-nil, which is what the subsequent
`chunk.Candidates[0].Content.Parts` access requires. Returns the first
candidate's content parts when the chunk carries them. -/
def chunkContentParts (c : Chunk) : Option (List RespPart) :=
  match c.candidates with
  | [] => none
  | cand :: _ =>
      match cand.content with
      | none => none
      | some content => some content.parts

/-- A neutral output part yielded by the reassembler: a text part or a
tool-call part. The tool-call args carry the JSON object value; Go encodes
it to bytes with `json.Marshal`, which cannot fail on values of this JSON
model, so the marshal-error arm of the source is unreachable here. -/
inductive OutPart where
  | text (s : String) : OutPart
  | toolCall (id name : String) (args : Json) : OutPart

/-- One element of the reassembled output sequence: a neutral part, or the
error payload of a terminal error element. -/
inductive OutElem where
  | part (p : OutPart) : OutElem
  | err (e : String) : OutElem

/-- The per-sub-part body of the reassembler loop (chat_complete.go lines
220-243): a non-empty text yields a text part; a function call yields a
tool-call part whose id is the backend id, or a synthesized one when the
backend id is empty. `genId k` models the value `createRandomID()` returns
for the k-th synthesized id of this call (the source hashes the wall-clock
time, which has no counterpart in this embedding). Returns the yielded
elements plus the updated synthesized-id counter. -/
def emitPart (genId : Nat → String) (k : Nat) (p : RespPart) : List OutElem × Nat :=
  let textElems : List OutElem :=
    if p.text ≠ "" then [.part (.text p.text)] else []
  match p.functionCall with
  | none => (textElems, k)
  | some fc =>
      let callId := if fc.id = "" then genId k else fc.id
      let k2 := if fc.id = "" then k + 1 else k
      (textElems ++ [.part (.toolCall callId fc.name (.obj fc.args))], k2)

/-- The parts loop of the reassembler over one chunk's sub-parts, in order. -/
def emitParts (genId : Nat → String) (k : Nat) : List RespPart → List OutElem × Nat
  | [] => ([], k)
  | p :: rest =>
      let (es, k2) := emitPart genId k p
      let (tail, k3) := emitParts genId k2 rest
      (es ++ tail, k3)

/-- The streaming reassembly loop of `ChatComplete` (chat_complete.go lines
190-245): the backend stream is the list of (chunk, error) pairs the range
over `chat.SendStream` produces. A transport error yields a single terminal
error element and stops. An ok chunk first updates the usage accumulator,
then is skipped if it carries no candidate content, else its sub-parts are
emitted in order. Returns the full yielded sequence (the consumer accepting
every element) together with the final accumulator value. -/
def reassemble (genId : Nat → String) (k : Nat) (usage : Usage) :
    List (Except String Chunk) → List OutElem × Usage
  | [] => ([], usage)
  | .error e :: _ => ([.err e], usage)
  | .ok c :: rest =>
      let usage2 := updateUsage usage c
      match chunkContentParts c with
      | none => reassemble genId k usage2 rest
      | some parts =>
          let (es, k2) := emitParts genId k parts
          let (tail, usage3) := reassemble genId k2 usage2 rest
          (es ++ tail, usage3)

/-- The id-insensitive shape of an output element, used to state ordering
properties independently of synthesized tool-call ids. -/
inductive ElemShape where
  | text (s : String) : ElemShape
  | call (name : String) (args : Json) : ElemShape
  | err (e : String) : ElemShape

/-- Project an output element to its shape. -/
def elemShape : OutElem → ElemShape
  | .part (.text s) => .text s
  | .part (.toolCall _ name args) => .call name args
  | .err e => .err e

/-- Specification-side description of one sub-part's contribution, following
the spec's words: a neutral text part for a non-empty text sub-part, then a
neutral tool-call part for a function-call sub-part, in the backend's
emission order. Stated on shapes; compared against `emitPart`. -/
def specPartShapes (p : RespPart) : List ElemShape :=
  (if p.text ≠ "" then [.text p.text] else []) ++
  (match p.functionCall with
   | none => []
   | some fc => [.call fc.name (.obj fc.args)])

/-- Specification-side description of the whole reassembled sequence over an
error-free stream: each chunk contributes its first candidate's sub-part
shapes in emission order (nothing when it carries no candidate content), and
chunks contribute in receipt order. -/
def specStreamShapes (chunks : List Chunk) : List ElemShape :=
  (chunks.map fun c => ((chunkContentParts c).getD []).map specPartShapes |>.flatten).flatten

/-- The spec's type-mapping table for the response-schema path, stated from
the spec's words ("object→recurse properties + copy required list;
array→recurse the single item schema if present; unspecified/unrecognized
type defaults to String"), for comparison against `ConvertResponseSchema`. -/
def specTypeMap : GaiType → GenaiType
  | .string => .string
  | .number => .number
  | .integer => .integer
  | .boolean => .boolean
  | .array => .array
  | .object => .object
  | .unspecified => .string


mutual

/-- Characterization of `ConvertResponseSchema`: it always succeeds, maps the
type by the spec's table, copies the constraint fields verbatim, copies the
required list exactly for object schemas, leaves an absent any-of absent, and
converts any-of lists, array items and non-empty object properties through
recursive sub-calls. -/
theorem respSpec : ∀ s : GaiSchema, ∃ g, ConvertResponseSchema s = .ok g ∧
    g.type = specTypeMap s.type ∧
    g.constraints = s.constraints ∧
    (s.type = .object → g.required = s.required) ∧
    (s.type ≠ .object → g.required = []) ∧
    (s.anyOf = none → g.anyOf = none) ∧
    (∀ l, s.anyOf = some l → ∃ gl, convertResponseAnyOf 0 l = .ok gl ∧ g.anyOf = some gl) ∧
    (∀ it, s.type = .array → s.items = some it → ∃ gi, ConvertResponseSchema it = .ok gi ∧ g.items = some gi) ∧
    (s.type = .object → 0 < s.properties.length → ∃ gps, convertResponseProps s.properties = .ok gps ∧ g.properties = some gps)
  | .mk ty props req items anyOf cs => by
    have hany : ∃ a : Option (List GSchema),
        (anyOf = none → a = none) ∧
        (∀ l, anyOf = some l → ∃ gl, convertResponseAnyOf 0 l = .ok gl ∧ a = some gl) := by
      cases anyOf with
      | none => exact ⟨none, fun _ => rfl, by simp⟩
      | some l =>
        obtain ⟨gl, hgl⟩ := respAnyOfOkAux 0 l
        refine ⟨some gl, by simp, ?_⟩
        intro l2 hl2
        cases hl2
        exact ⟨gl, hgl, rfl⟩
    obtain ⟨a, haNone, haSome⟩ := hany
    cases ty
    case string =>
      refine ⟨GSchema.mk .string none [] none a cs, ?_, ?_, ?_, ?_, ?_, ?_, ?_, ?_, ?_⟩
      · rw [ConvertResponseSchema.eq_def]
        simp only [bind, Except.bind, pure, Except.pure]
        cases anyOf with
        | none => cases haNone rfl; simp
        | some l =>
          obtain ⟨gl, hgl, hal⟩ := haSome l rfl
          cases hal
          simp [hgl]
      all_goals simp [GSchema.type, GaiSchema.type, specTypeMap, GSchema.constraints,
        GaiSchema.constraints, GSchema.required, GSchema.anyOf, GSchema.properties,
        GSchema.items, GaiSchema.anyOf, GaiSchema.properties, GaiSchema.items,
        GaiSchema.required]
      all_goals first
        | exact haNone
        | exact haSome
    case number =>
      refine ⟨GSchema.mk .number none [] none a cs, ?_, ?_, ?_, ?_, ?_, ?_, ?_, ?_, ?_⟩
      · rw [ConvertResponseSchema.eq_def]
        simp only [bind, Except.bind, pure, Except.pure]
        cases anyOf with
        | none => cases haNone rfl; simp
        | some l =>
          obtain ⟨gl, hgl, hal⟩ := haSome l rfl
          cases hal
          simp [hgl]
      all_goals simp [GSchema.type, GaiSchema.type, specTypeMap, GSchema.constraints,
        GaiSchema.constraints, GSchema.required, GSchema.anyOf, GSchema.properties,
        GSchema.items, GaiSchema.anyOf, GaiSchema.properties, GaiSchema.items,
        GaiSchema.required]
      all_goals first
        | exact haNone
        | exact haSome
    case integer =>
      refine ⟨GSchema.mk .integer none [] none a cs, ?_, ?_, ?_, ?_, ?_, ?_, ?_, ?_, ?_⟩
      · rw [ConvertResponseSchema.eq_def]
        simp only [bind, Except.bind, pure, Except.pure]
        cases anyOf with
        | none => cases haNone rfl; simp
        | some l =>
          obtain ⟨gl, hgl, hal⟩ := haSome l rfl
          cases hal
          simp [hgl]
      all_goals simp [GSchema.type, GaiSchema.type, specTypeMap, GSchema.constraints,
        GaiSchema.constraints, GSchema.required, GSchema.anyOf, GSchema.properties,
        GSchema.items, GaiSchema.anyOf, GaiSchema.properties, GaiSchema.items,
        GaiSchema.required]
      all_goals first
        | exact haNone
        | exact haSome
    case boolean =>
      refine ⟨GSchema.mk .boolean none [] none a cs, ?_, ?_, ?_, ?_, ?_, ?_, ?_, ?_, ?_⟩
      · rw [ConvertResponseSchema.eq_def]
        simp only [bind, Except.bind, pure, Except.pure]
        cases anyOf with
        | none => cases haNone rfl; simp
        | some l =>
          obtain ⟨gl, hgl, hal⟩ := haSome l rfl
          cases hal
          simp [hgl]
      all_goals simp [GSchema.type, GaiSchema.type, specTypeMap, GSchema.constraints,
        GaiSchema.constraints, GSchema.required, GSchema.anyOf, GSchema.properties,
        GSchema.items, GaiSchema.anyOf, GaiSchema.properties, GaiSchema.items,
        GaiSchema.required]
      all_goals first
        | exact haNone
        | exact haSome
    case unspecified =>
      refine ⟨GSchema.mk .string none [] none a cs, ?_, ?_, ?_, ?_, ?_, ?_, ?_, ?_, ?_⟩
      · rw [ConvertResponseSchema.eq_def]
        simp only [bind, Except.bind, pure, Except.pure]
        cases anyOf with
        | none => cases haNone rfl; simp
        | some l =>
          obtain ⟨gl, hgl, hal⟩ := haSome l rfl
          cases hal
          simp [hgl]
      all_goals simp [GSchema.type, GaiSchema.type, specTypeMap, GSchema.constraints,
        GaiSchema.constraints, GSchema.required, GSchema.anyOf, GSchema.properties,
        GSchema.items, GaiSchema.anyOf, GaiSchema.properties, GaiSchema.items,
        GaiSchema.required]
      all_goals first
        | exact haNone
        | exact haSome
    case array =>
      cases items with
      | none =>
        refine ⟨GSchema.mk .array none [] none a cs, ?_, ?_, ?_, ?_, ?_, ?_, ?_, ?_, ?_⟩
        · rw [ConvertResponseSchema.eq_def]
          simp only [bind, Except.bind, pure, Except.pure]
          cases anyOf with
          | none => cases haNone rfl; simp
          | some l =>
            obtain ⟨gl, hgl, hal⟩ := haSome l rfl
            cases hal
            simp [hgl]
        all_goals simp [GSchema.type, GaiSchema.type, specTypeMap, GSchema.constraints,
          GaiSchema.constraints, GSchema.required, GSchema.anyOf, GSchema.properties,
          GSchema.items, GaiSchema.anyOf, GaiSchema.properties, GaiSchema.items,
          GaiSchema.required]
        all_goals first
          | exact haNone
          | exact haSome
      | some itemSchema =>
        obtain ⟨gi, hgi, -⟩ := respSpec itemSchema
        refine ⟨GSchema.mk .array none [] (some gi) a cs, ?_, ?_, ?_, ?_, ?_, ?_, ?_, ?_, ?_⟩
        · rw [ConvertResponseSchema.eq_def]
          simp only [bind, Except.bind, pure, Except.pure, wrapErr, hgi]
          cases anyOf with
          | none => cases haNone rfl; simp
          | some l =>
            obtain ⟨gl, hgl, hal⟩ := haSome l rfl
            cases hal
            simp [hgl]
        · simp [GSchema.type, GaiSchema.type, specTypeMap]
        · simp [GSchema.constraints, GaiSchema.constraints]
        · simp [GaiSchema.type]
        · simp [GSchema.required]
        · simp only [GaiSchema.anyOf, GSchema.anyOf]
          exact haNone
        · simpa [GaiSchema.anyOf, GSchema.anyOf] using haSome
        · intro it _ hit
          simp only [GaiSchema.items] at hit
          cases hit
          exact ⟨gi, hgi, by simp [GSchema.items]⟩
        · simp [GaiSchema.type]
    case object =>
      by_cases hp : 0 < props.length
      · obtain ⟨gps, hgps⟩ := respPropsOkAux props
        refine ⟨GSchema.mk .object (some gps) req none a cs, ?_, ?_, ?_, ?_, ?_, ?_, ?_, ?_, ?_⟩
        · rw [ConvertResponseSchema.eq_def]
          simp only [bind, Except.bind, pure, Except.pure, hgps, hp, if_pos]
          cases anyOf with
          | none => cases haNone rfl; simp
          | some l =>
            obtain ⟨gl, hgl, hal⟩ := haSome l rfl
            cases hal
            simp [hgl]
        · simp [GSchema.type, GaiSchema.type, specTypeMap]
        · simp [GSchema.constraints, GaiSchema.constraints]
        · simp [GSchema.required, GaiSchema.required, GaiSchema.type]
        · simp [GaiSchema.type]
        · simp only [GaiSchema.anyOf, GSchema.anyOf]
          exact haNone
        · simpa [GaiSchema.anyOf, GSchema.anyOf] using haSome
        · simp [GaiSchema.type]
        · intro _ _
          exact ⟨gps, hgps, by simp [GSchema.properties]⟩
      · refine ⟨GSchema.mk .object none req none a cs, ?_, ?_, ?_, ?_, ?_, ?_, ?_, ?_, ?_⟩
        · rw [ConvertResponseSchema.eq_def]
          simp only [bind, Except.bind, pure, Except.pure, hp, if_neg]
          cases anyOf with
          | none => cases haNone rfl; simp
          | some l =>
            obtain ⟨gl, hgl, hal⟩ := haSome l rfl
            cases hal
            simp [hgl]
        · simp [GSchema.type, GaiSchema.type, specTypeMap]
        · simp [GSchema.constraints, GaiSchema.constraints]
        · simp [GSchema.required, GaiSchema.required, GaiSchema.type]
        · simp [GaiSchema.type]
        · simp only [GaiSchema.anyOf, GSchema.anyOf]
          exact haNone
        · simpa [GaiSchema.anyOf, GSchema.anyOf] using haSome
        · simp [GaiSchema.type]
        · intro _ hlen
          simp [GaiSchema.properties] at hlen
          omega
termination_by s => sizeOf s
decreasing_by
  all_goals simp_wf
  all_goals omega

/-- The properties loop of the response-schema converter always succeeds. -/
theorem respPropsOkAux : ∀ l, ∃ gs, convertResponseProps l = .ok gs
  | [] => ⟨[], by simp [convertResponseProps, pure, Except.pure]⟩
  | (name, prop) :: rest => by
    obtain ⟨g, hg, -⟩ := respSpec prop
    obtain ⟨gs, hgs⟩ := respPropsOkAux rest
    exact ⟨(name, g) :: gs,
      by simp [convertResponseProps, wrapErr, hg, hgs, pure, Except.pure, bind, Except.bind]⟩
termination_by l => sizeOf l
decreasing_by
  all_goals simp_wf
  all_goals omega

/-- The any-of loop of the response-schema converter always succeeds. -/
theorem respAnyOfOkAux : ∀ (i : Nat) (l : List GaiSchema), ∃ gs, convertResponseAnyOf i l = .ok gs
  | _, [] => ⟨[], by simp [convertResponseAnyOf, pure, Except.pure]⟩
  | i, sub :: rest => by
    obtain ⟨g, hg, -⟩ := respSpec sub
    obtain ⟨gs, hgs⟩ := respAnyOfOkAux (i + 1) rest
    exact ⟨g :: gs,
      by simp [convertResponseAnyOf, wrapErr, hg, hgs, pure, Except.pure, bind, Except.bind]⟩
termination_by i l => sizeOf l
decreasing_by
  all_goals simp_wf
  all_goals omega

end


/-- Pointwise description of the response-schema properties loop. -/
theorem respPropsForall : ∀ (l : List (String × GaiSchema)) (gs : List (String × GSchema)),
    convertResponseProps l = .ok gs →
    List.Forall₂ (fun p q => p.1 = q.1 ∧ ConvertResponseSchema p.2 = .ok q.2) l gs
  | [], gs => by
    intro h
    simp [convertResponseProps, pure, Except.pure] at h
    subst h
    exact List.Forall₂.nil
  | (name, prop) :: rest, gs => by
    intro h
    obtain ⟨g, hg, -⟩ := respSpec prop
    obtain ⟨gs2, hgs2⟩ := respPropsOkAux rest
    simp [convertResponseProps, hg, hgs2, wrapErr, bind, Except.bind, pure, Except.pure] at h
    subst h
    exact List.Forall₂.cons ⟨rfl, hg⟩ (respPropsForall rest gs2 hgs2)

/-- Pointwise description of the tool-schema properties loop. -/
theorem toolPropsForall : ∀ (l : List (String × Json)) (gs : List (String × GSchema)),
    convertToolProps l = .ok gs →
    List.Forall₂ (fun p q => p.1 = q.1 ∧ ConvertProperty p.2 = .ok q.2) l gs
  | [], gs => by
    intro h
    simp [convertToolProps, pure, Except.pure] at h
    subst h
    exact List.Forall₂.nil
  | (name, prop) :: rest, gs => by
    intro h
    cases hc : ConvertProperty prop with
    | error e =>
      simp [convertToolProps, hc, wrapErr, bind, Except.bind] at h
    | ok g =>
      cases hr : convertToolProps rest with
      | error e =>
        simp [convertToolProps, hc, hr, wrapErr, bind, Except.bind] at h
      | ok gs2 =>
        simp [convertToolProps, hc, hr, wrapErr, bind, Except.bind, pure, Except.pure] at h
        subst h
        exact List.Forall₂.cons ⟨rfl, hc⟩ (toolPropsForall rest gs2 hr)

/-- Pointwise description of the tools loop on success. -/
theorem toolsLoopForall : ∀ (tools : List Tool) (ds : List FunctionDeclaration),
    convertToolsLoop tools = .ok ds →
    List.Forall₂ (fun tool d => ConvertToolToFunction tool = .ok d) tools ds
  | [], ds => by
    intro h
    simp [convertToolsLoop, pure, Except.pure] at h
    subst h
    exact List.Forall₂.nil
  | tool :: rest, ds => by
    intro h
    cases hc : ConvertToolToFunction tool with
    | error e =>
      simp [convertToolsLoop, hc, wrapErr, bind, Except.bind] at h
    | ok d =>
      cases hr : convertToolsLoop rest with
      | error e =>
        simp [convertToolsLoop, hc, hr, wrapErr, bind, Except.bind] at h
      | ok ds2 =>
        simp [convertToolsLoop, hc, hr, wrapErr, bind, Except.bind, pure, Except.pure] at h
        subst h
        exact List.Forall₂.cons hc (toolsLoopForall rest ds2 hr)

/-- The tools loop aborts with a wrapped error at the first failing tool. -/
theorem toolsLoopFail : ∀ (pre : List Tool) (tool : Tool) (post : List Tool) (e : String),
    (∀ t2 ∈ pre, ∃ d, ConvertToolToFunction t2 = .ok d) →
    ConvertToolToFunction tool = .error e →
    convertToolsLoop (pre ++ tool :: post) = .error ("converting tool " ++ tool.name ++ ": " ++ e)
  | [], tool, post, e => by
    intro _ hfail
    simp [convertToolsLoop, hfail, wrapErr, bind, Except.bind]
  | t2 :: pre, tool, post, e => by
    intro hpre hfail
    obtain ⟨d, hd⟩ := hpre t2 (by simp)
    have ih := toolsLoopFail pre tool post e (fun t3 ht3 => hpre t3 (by simp [ht3])) hfail
    simp [convertToolsLoop, hd, ih, wrapErr, bind, Except.bind]


/-- Elements emitted for one sub-part have the shapes the spec prescribes. -/
theorem emitPartShapes (genId : Nat → String) (k : Nat) (p : RespPart) :
    ((emitPart genId k p).1).map elemShape = specPartShapes p := by
  obtain ⟨t, fc⟩ := p
  cases fc <;> by_cases ht : t = "" <;>
    simp [emitPart, specPartShapes, elemShape, ht]

/-- Elements emitted for a chunk's sub-part list have the spec's shapes, in
emission order. -/
theorem emitPartsShapes (genId : Nat → String) : ∀ (ps : List RespPart) (k : Nat),
    ((emitParts genId k ps).1).map elemShape = (ps.map specPartShapes).flatten
  | [], k => by simp [emitParts]
  | p :: rest, k => by
    have h1 := emitPartShapes genId k p
    rcases hep : emitPart genId k p with ⟨es, k2⟩
    rw [hep] at h1
    simp only [emitParts, hep, List.map_cons, List.flatten_cons]
    rcases her : emitParts genId k2 rest with ⟨tail, k3⟩
    have h2 := emitPartsShapes genId rest k2
    rw [her] at h2
    simp [List.map_append, h1, h2]

/-- Every element emitted for one sub-part is a part element. -/
theorem emitPartParts (genId : Nat → String) (k : Nat) (p : RespPart) (x : OutElem) :
    x ∈ (emitPart genId k p).1 → ∃ q, x = OutElem.part q := by
  obtain ⟨t, fc⟩ := p
  cases fc <;> by_cases ht : t = "" <;> simp [emitPart, ht] <;>
    first
      | (rintro (rfl | rfl) <;> exact ⟨_, rfl⟩)
      | (rintro rfl; exact ⟨_, rfl⟩)
      | skip

/-- Every element emitted for a sub-part list is a part element. -/
theorem emitPartsParts (genId : Nat → String) : ∀ (ps : List RespPart) (k : Nat)
    (x : OutElem), x ∈ (emitParts genId k ps).1 → ∃ q, x = OutElem.part q
  | [], k, x => by simp [emitParts]
  | p :: rest, k, x => by
    intro hx
    rcases hep : emitPart genId k p with ⟨es, k2⟩
    rcases her : emitParts genId k2 rest with ⟨tail, k3⟩
    simp only [emitParts, hep, her, List.mem_append] at hx
    rcases hx with hx | hx
    · exact emitPartParts genId k p x (by rw [hep]; exact hx)
    · exact emitPartsParts genId rest k2 x (by rw [her]; exact hx)

/-- Over an error-free stream the reassembled elements have exactly the
spec's shapes, chunk by chunk in receipt order. -/
theorem reassembleShapes (genId : Nat → String) : ∀ (chunks : List Chunk) (k : Nat) (u : Usage),
    ((reassemble genId k u (chunks.map Except.ok)).1).map elemShape = specStreamShapes chunks
  | [], k, u => by simp [reassemble, specStreamShapes]
  | c :: rest, k, u => by
    cases hc : chunkContentParts c with
    | none =>
      simp only [List.map_cons, reassemble, hc]
      rw [reassembleShapes genId rest k (updateUsage u c)]
      simp [specStreamShapes, hc]
    | some parts =>
      rcases hep : emitParts genId k parts with ⟨es, k2⟩
      rcases hre : reassemble genId k2 (updateUsage u c) (rest.map Except.ok) with ⟨tail, u3⟩
      simp only [List.map_cons, reassemble, hc, hep, hre, List.map_append]
      have h1 := emitPartsShapes genId parts k
      rw [hep] at h1
      have h2 := reassembleShapes genId rest k2 (updateUsage u c)
      rw [hre] at h2
      simp [specStreamShapes, hc, h1, h2]

/-- Over an error-free stream every reassembled element is a part element. -/
theorem reassembleOkParts (genId : Nat → String) : ∀ (chunks : List Chunk) (k : Nat) (u : Usage)
    (x : OutElem), x ∈ (reassemble genId k u (chunks.map Except.ok)).1 → ∃ q, x = OutElem.part q
  | [], k, u, x => by simp [reassemble]
  | c :: rest, k, u, x => by
    intro hx
    cases hc : chunkContentParts c with
    | none =>
      simp only [List.map_cons, reassemble, hc] at hx
      exact reassembleOkParts genId rest k (updateUsage u c) x hx
    | some parts =>
      rcases hep : emitParts genId k parts with ⟨es, k2⟩
      rcases hre : reassemble genId k2 (updateUsage u c) (rest.map Except.ok) with ⟨tail, u3⟩
      simp only [List.map_cons, reassemble, hc, hep, hre, List.mem_append] at hx
      rcases hx with hx | hx
      · exact emitPartsParts genId parts k x (by rw [hep]; exact hx)
      · exact reassembleOkParts genId rest k2 (updateUsage u c) x (by rw [hre]; exact hx)

/-- A transport error ends the reassembled sequence with a single terminal
error element: the output is the error-free prefix's output plus that one
element, whatever follows the error in the stream. -/
theorem reassembleErrorSplit (genId : Nat → String) : ∀ (chunks : List Chunk) (k : Nat) (u : Usage)
    (e : String) (rest : List (Except String Chunk)),
    (reassemble genId k u (chunks.map Except.ok ++ Except.error e :: rest)).1 =
      (reassemble genId k u (chunks.map Except.ok)).1 ++ [OutElem.err e]
  | [], k, u, e, rest => by simp [reassemble]
  | c :: chunks2, k, u, e, rest => by
    cases hc : chunkContentParts c with
    | none =>
      simp only [List.map_cons, List.cons_append, reassemble, hc]
      exact reassembleErrorSplit genId chunks2 k (updateUsage u c) e rest
    | some parts =>
      rcases hep : emitParts genId k parts with ⟨es, k2⟩
      rcases hr1 : reassemble genId k2 (updateUsage u c) (chunks2.map Except.ok ++ Except.error e :: rest) with ⟨t1, u1⟩
      rcases hr2 : reassemble genId k2 (updateUsage u c) (chunks2.map Except.ok) with ⟨t2, u2⟩
      have hsplit := reassembleErrorSplit genId chunks2 k2 (updateUsage u c) e rest
      rw [hr1, hr2] at hsplit
      simp only [List.map_cons, List.cons_append, reassemble, hc, hep, List.append_eq, hr1, hr2]
      simp at hsplit
      simp [hsplit, List.append_assoc]

/-- The final usage accumulator over an error-free stream is the left fold of
the per-chunk usage update. -/
theorem reassembleUsage (genId : Nat → String) : ∀ (chunks : List Chunk) (k : Nat) (u : Usage),
    (reassemble genId k u (chunks.map Except.ok)).2 = chunks.foldl updateUsage u
  | [], k, u => by simp [reassemble]
  | c :: rest, k, u => by
    cases hc : chunkContentParts c with
    | none =>
      simp only [List.map_cons, reassemble, hc, List.foldl_cons]
      exact reassembleUsage genId rest k (updateUsage u c)
    | some parts =>
      rcases hep : emitParts genId k parts with ⟨es, k2⟩
      rcases hre : reassemble genId k2 (updateUsage u c) (rest.map Except.ok) with ⟨tail, u3⟩
      simp only [List.map_cons, reassemble, hc, hep, hre, List.foldl_cons]
      have hu := reassembleUsage genId rest k2 (updateUsage u c)
      rw [hre] at hu
      simpa using hu

/-- The left fold of the usage update ends at the last usage-carrying
chunk's values. -/
theorem foldlUpdateUsageLast : ∀ (chunks : List Chunk) (u : Usage) (um : UsageMetadata),
    (chunks.filterMap Chunk.usageMetadata).getLast? = some um →
    chunks.foldl updateUsage u =
      { promptTokens := um.promptTokenCount, thoughtsTokens := um.thoughtsTokenCount,
        completionTokens := um.candidatesTokenCount } := by
  intro chunks
  induction chunks using List.reverseRecOn with
  | nil => intro u um h; simp at h
  | append_singleton front c ih =>
    intro u um h
    rw [List.foldl_append]
    rcases hu : c.usageMetadata with - | um2
    · rw [List.filterMap_append] at h
      simp only [List.filterMap_cons, hu, List.filterMap_nil, List.append_nil] at h
      simp only [List.foldl_cons, List.foldl_nil, updateUsage, hu]
      exact ih u um h
    · rw [List.filterMap_append] at h
      simp only [List.filterMap_cons, hu, List.filterMap_nil] at h
      rw [List.getLast?_concat] at h
      injection h with h2
      subst h2
      simp [updateUsage, hu]


/-- Pointwise description of the request assembler's message loop on
success. -/
theorem convertMessagesForall : ∀ (l : List Message) (cs : List Content),
    convertMessages l = .ok cs → List.Forall₂ (fun m c => convertMessage m = .ok c) l cs
  | [], cs => by
    intro h
    simp [convertMessages, pure, Except.pure] at h
    subst h
    exact List.Forall₂.nil
  | m :: rest, cs => by
    intro h
    cases hc : convertMessage m with
    | error e =>
      simp [convertMessages, hc, bind, Except.bind] at h
    | ok c =>
      cases hr : convertMessages rest with
      | error e =>
        simp [convertMessages, hc, hr, bind, Except.bind] at h
      | ok cs2 =>
        simp [convertMessages, hc, hr, bind, Except.bind, pure, Except.pure] at h
        subst h
        exact List.Forall₂.cons hc (convertMessagesForall rest cs2 hr)

/-- A `Forall₂` relation carries over to the last elements of the lists. -/
theorem forall2GetLast {α β : Type} {R : α → β → Prop} :
    ∀ {l1 : List α} {l2 : List β}, List.Forall₂ R l1 l2 →
    ∀ a, l1.getLast? = some a → ∃ b, l2.getLast? = some b ∧ R a b := by
  intro l1 l2 h
  induction h with
  | nil => intro a ha; simp at ha
  | @cons x y xs ys hR hF ih =>
    intro a ha
    cases hxs : xs with
    | nil =>
      subst hxs
      cases hF
      simp at ha
      subst ha
      exact ⟨y, by simp, hR⟩
    | cons c cs =>
      subst hxs
      obtain ⟨d, ds, rfl⟩ : ∃ d ds, ys = d :: ds := by
        cases hF with
        | cons _ _ => exact ⟨_, _, rfl⟩
      rw [List.getLast?_cons_cons] at ha
      obtain ⟨b, hb, hRb⟩ := ih a ha
      exact ⟨b, by rw [List.getLast?_cons_cons]; exact hb, hRb⟩


/-- C1: a chunk without candidate content is skipped without producing any
element (only the usage accumulator is updated), and over an error-free
stream the reassembled sequence is exactly, chunk by chunk in receipt order,
a text part for every non-empty text sub-part and a tool-call part for every
function-call sub-part of the first candidate's content, in the backend's
emission order. -/
theorem claim_C1 (genId : Nat → String) (k : Nat) (u : Usage) (chunks : List Chunk) :
    (∀ (c : Chunk) (rest : List (Except String Chunk)), chunkContentParts c = none →
      reassemble genId k u (Except.ok c :: rest) =
        reassemble genId k (updateUsage u c) rest) ∧
    ((reassemble genId k u (chunks.map Except.ok)).1).map elemShape = specStreamShapes chunks := by
  constructor
  · intro c rest hc
    simp [reassemble, hc]
  · exact reassembleShapes genId chunks k u

/-- C1 witness: a stream of a contentless chunk followed by a chunk with one
text and one function-call sub-part yields exactly the text shape then the
call shape. -/
theorem claim_C1_witness :
    ((reassemble (fun _ => "gen") 0 ⟨0, 0, 0⟩
        ([(⟨[], none⟩ : Chunk),
          ⟨[⟨some ⟨[⟨"hi", none⟩, ⟨"", some ⟨"", "f", []⟩⟩]⟩⟩], none⟩].map Except.ok)).1).map elemShape =
      [ElemShape.text "hi", ElemShape.call "f" (Json.obj [])] :=
  (claim_C1 (fun _ => "gen") 0 ⟨0, 0, 0⟩
      [⟨[], none⟩, ⟨[⟨some ⟨[⟨"hi", none⟩, ⟨"", some ⟨"", "f", []⟩⟩]⟩⟩], none⟩]).2

/-- C3: a chunk carrying usage metadata overwrites the accumulator with the
chunk's values, so after the stream is drained the accumulator equals the
last usage-carrying chunk's values, and the total is the sum of the prompt,
thoughts and completion counters. -/
theorem claim_C3 (genId : Nat → String) (k : Nat) (u : Usage) (chunks : List Chunk)
    (um : UsageMetadata)
    (hlast : (chunks.filterMap Chunk.usageMetadata).getLast? = some um) :
    (reassemble genId k u (chunks.map Except.ok)).2 =
      { promptTokens := um.promptTokenCount, thoughtsTokens := um.thoughtsTokenCount,
        completionTokens := um.candidatesTokenCount } ∧
    ((reassemble genId k u (chunks.map Except.ok)).2).totalTokens =
      um.promptTokenCount + um.thoughtsTokenCount + um.candidatesTokenCount := by
  have h1 := reassembleUsage genId chunks k u
  have h2 := foldlUpdateUsageLast chunks u um hlast
  rw [h1, h2]
  exact ⟨rfl, rfl⟩

/-- C3 witness: three usage-carrying chunks with increasing counts leave the
accumulator at the third chunk's values. -/
theorem claim_C3_witness :
    (reassemble (fun _ => "gen") 0 ⟨0, 0, 0⟩
        ([(⟨[], some ⟨3, 0, 0, 3⟩⟩ : Chunk), ⟨[], some ⟨3, 2, 1, 6⟩⟩,
          ⟨[], some ⟨3, 5, 2, 10⟩⟩].map Except.ok)).2 =
      { promptTokens := 3, thoughtsTokens := 2, completionTokens := 5 } ∧
    (reassemble (fun _ => "gen") 0 ⟨0, 0, 0⟩
        ([(⟨[], some ⟨3, 0, 0, 3⟩⟩ : Chunk), ⟨[], some ⟨3, 2, 1, 6⟩⟩,
          ⟨[], some ⟨3, 5, 2, 10⟩⟩].map Except.ok)).2.totalTokens = 3 + 2 + 5 :=
  claim_C3 (fun _ => "gen") 0 ⟨0, 0, 0⟩
    [⟨[], some ⟨3, 0, 0, 3⟩⟩, ⟨[], some ⟨3, 2, 1, 6⟩⟩, ⟨[], some ⟨3, 5, 2, 10⟩⟩]
    ⟨3, 5, 2, 10⟩ rfl

/-- C9: a transport error ends the reassembled sequence with that error as
the sole payload of a single final element — whatever follows the error in
the stream contributes nothing — and everything before it is a part
element. -/
theorem claim_C9 (genId : Nat → String) (k : Nat) (u : Usage) (chunks : List Chunk)
    (e : String) (rest : List (Except String Chunk)) :
    (reassemble genId k u (chunks.map Except.ok ++ Except.error e :: rest)).1 =
      (reassemble genId k u (chunks.map Except.ok)).1 ++ [OutElem.err e] ∧
    ∀ x ∈ (reassemble genId k u (chunks.map Except.ok)).1, ∃ q, x = OutElem.part q :=
  ⟨reassembleErrorSplit genId chunks k u e rest,
   fun x hx => reassembleOkParts genId chunks k u x hx⟩

/-- C9 witness: a text chunk, then a transport error, then a further chunk
yield the text part followed by the sole error element, and nothing more. -/
theorem claim_C9_witness :
    (reassemble (fun _ => "gen") 0 ⟨0, 0, 0⟩
        ([(⟨[⟨some ⟨[⟨"hi", none⟩]⟩⟩], none⟩ : Chunk)].map Except.ok ++
          Except.error "boom" :: [Except.ok (⟨[⟨some ⟨[⟨"later", none⟩]⟩⟩], none⟩ : Chunk)])).1 =
      (reassemble (fun _ => "gen") 0 ⟨0, 0, 0⟩
        ([(⟨[⟨some ⟨[⟨"hi", none⟩]⟩⟩], none⟩ : Chunk)].map Except.ok)).1 ++ [OutElem.err "boom"] ∧
    (∃ q, OutElem.part (OutPart.text "hi") = OutElem.part q) :=
  ⟨(claim_C9 (fun _ => "gen") 0 ⟨0, 0, 0⟩ [⟨[⟨some ⟨[⟨"hi", none⟩]⟩⟩], none⟩] "boom"
      [Except.ok ⟨[⟨some ⟨[⟨"later", none⟩]⟩⟩], none⟩]).1,
   (claim_C9 (fun _ => "gen") 0 ⟨0, 0, 0⟩ [⟨[⟨some ⟨[⟨"hi", none⟩]⟩⟩], none⟩] "boom"
      [Except.ok ⟨[⟨some ⟨[⟨"later", none⟩]⟩⟩], none⟩]).2
     (OutElem.part (OutPart.text "hi")) (List.Mem.head _)⟩

/-- C4: the history assembler panics on an empty message list and on a final
message whose role is not user; when the final message has the user role and
assembly succeeds, it returns exactly N-1 history turns plus the last
message's converted parts as the separate live input. -/
theorem claim_C4 (messages : List Message) :
    (messages = [] → buildHistory messages = .error (.panicked "no messages")) ∧
    (∀ lastMessage, messages.getLast? = some lastMessage → lastMessage.role ≠ .user →
      buildHistory messages = .error (.panicked "last message must have user role")) ∧
    (∀ lastMessage history live, messages.getLast? = some lastMessage →
      lastMessage.role = .user → buildHistory messages = .ok (history, live) →
      history.length = messages.length - 1 ∧
      ∃ c, convertMessage lastMessage = .ok c ∧ live = c.parts) := by
  refine ⟨?_, ?_, ?_⟩
  · intro h
    subst h
    rfl
  · intro lastMessage hlast hrole
    simp [buildHistory, hlast, hrole]
  · intro lastMessage history live hlast hrole hok
    rw [buildHistory, hlast] at hok
    simp only [ne_eq, hrole, not_true_eq_false, if_false] at hok
    cases hcm : convertMessages messages with
    | error e =>
      simp [hcm, bind, Except.bind] at hok
    | ok cs =>
      have hFor := convertMessagesForall messages cs hcm
      obtain ⟨c, hcLast, hcR⟩ := forall2GetLast hFor lastMessage hlast
      simp only [hcm, bind, Except.bind, hcLast, pure, Except.pure, Except.ok.injEq,
        Prod.mk.injEq] at hok
      obtain ⟨h1, h2⟩ := hok
      refine ⟨?_, c, hcR, ?_⟩
      · rw [← h1, List.length_dropLast, hFor.length_eq]
      · exact h2.symm

/-- C4 witness: a model turn followed by a user turn assembles into one
history turn plus the user turn's parts as the live input. -/
theorem claim_C4_witness :
    buildHistory [⟨.model, [.text "a"]⟩, ⟨.user, [.text "b"]⟩] =
      .ok ([⟨.model, [.text "a"]⟩], [.text "b"]) ∧
    ([(⟨.model, [.text "a"]⟩ : Content)].length =
      ([⟨.model, [.text "a"]⟩, (⟨.user, [.text "b"]⟩ : Message)].length - 1) ∧
    ∃ c, convertMessage ⟨.user, [.text "b"]⟩ = .ok c ∧ [GPart.text "b"] = c.parts) :=
  ⟨rfl,
   (claim_C4 [⟨.model, [.text "a"]⟩, ⟨.user, [.text "b"]⟩]).2.2
     ⟨.user, [.text "b"]⟩ [⟨.model, [.text "a"]⟩] [.text "b"] rfl rfl rfl⟩

/-- C8: a tool-result part becomes a backend function-response part carrying
the tool's name and original id, whose payload is the output object when the
result carries no error and the error object when it does — mutually
exclusive, with the error payload suppressing the output key entirely. -/
theorem claim_C8 (id name content : String) (resultErr : Option String) :
    ∃ payload, convertPart (.toolResult id name content resultErr) =
        .ok (.functionResponse id name payload) ∧
      (resultErr = none →
        payload = [("output", Json.str content)] ∧ List.lookup "error" payload = none) ∧
      (∀ e, resultErr = some e →
        payload = [("error", Json.str e)] ∧ List.lookup "output" payload = none) := by
  cases resultErr with
  | none =>
    exact ⟨[("output", .str content)], rfl, fun _ => ⟨rfl, rfl⟩, by simp⟩
  | some e =>
    refine ⟨[("error", .str e)], rfl, by simp, ?_⟩
    intro e2 he
    injection he with he2
    subst he2
    exact ⟨rfl, rfl⟩

/-- C8 witness: a tool result carrying an error becomes a function response
whose payload is the error object with no output key. -/
theorem claim_C8_witness :
    ∃ payload, convertPart (.toolResult "id1" "tool1" "out" (some "bad")) =
        .ok (.functionResponse "id1" "tool1" payload) ∧
      payload = [("error", Json.str "bad")] ∧ List.lookup "output" payload = none := by
  obtain ⟨p, h1, -, h3⟩ := claim_C8 "id1" "tool1" "out" (some "bad")
  exact ⟨p, h1, h3 "bad" rfl⟩


/-- A successfully converted tool's declaration copies its name and
description verbatim and carries its converted schema. -/
theorem toolToFunctionSpec (tool : Tool) (d : FunctionDeclaration)
    (h : ConvertToolToFunction tool = .ok d) :
    d.name = tool.name ∧ d.description = tool.description ∧
    ConvertToolSchema tool.schema = .ok d.parameters := by
  cases hs : ConvertToolSchema tool.schema with
  | error e =>
    rw [ConvertToolToFunction] at h
    simp [hs, wrapErr] at h
  | ok s =>
    rw [ConvertToolToFunction] at h
    simp only [hs, wrapErr, Except.ok.injEq] at h
    subst h
    exact ⟨rfl, rfl, rfl⟩

/-- The JSON-Schema-shaped path of `ConvertToolSchema`: with a top-level
`"properties"` map, the result is an object schema whose properties are the
pointwise conversions of the nested map and whose required list is the
extracted top-level `"required"` strings. -/
theorem toolSchemaWrappedSpec (props propsMap : List (String × Json)) (gs : GSchema)
    (hlk : List.lookup "properties" props = some (Json.obj propsMap))
    (hok : ConvertToolSchema ⟨some (Json.obj props)⟩ = .ok gs) :
    gs.type = .object ∧ gs.required = requiredOf props ∧
    ∃ gps, gs.properties = some gps ∧
      List.Forall₂ (fun p q => p.1 = q.1 ∧ ConvertProperty p.2 = .ok q.2) propsMap gps := by
  rw [ConvertToolSchema] at hok
  simp only [hlk] at hok
  cases hc : convertToolProps propsMap with
  | error e =>
    simp [hc, bind, Except.bind] at hok
  | ok gps =>
    simp only [hc, bind, Except.bind, pure, Except.pure, Except.ok.injEq] at hok
    subst hok
    exact ⟨rfl, rfl, gps, rfl, toolPropsForall propsMap gps hc⟩

/-- The flat path of `ConvertToolSchema`: with no top-level `"properties"`
map, every top-level key is converted as a direct property definition and
the required list stays empty. -/
theorem toolSchemaFlatSpec (props : List (String × Json)) (gs : GSchema)
    (hflat : ∀ m, List.lookup "properties" props ≠ some (Json.obj m))
    (hok : ConvertToolSchema ⟨some (Json.obj props)⟩ = .ok gs) :
    gs.type = .object ∧ gs.required = [] ∧
    ∃ gps, gs.properties = some gps ∧
      List.Forall₂ (fun p q => p.1 = q.1 ∧ ConvertProperty p.2 = .ok q.2) props gps := by
  rw [ConvertToolSchema] at hok
  have hred : ∀ gps, convertToolProps props = .ok gps →
      gs = GSchema.mk .object (some gps) [] none none .zero → 
      gs.type = GenaiType.object ∧ gs.required = [] ∧
      ∃ gps2, gs.properties = some gps2 ∧
        List.Forall₂ (fun p q => p.1 = q.1 ∧ ConvertProperty p.2 = .ok q.2) props gps2 := by
    intro gps hc hgs
    subst hgs
    exact ⟨rfl, rfl, gps, rfl, toolPropsForall props gps hc⟩
  rcases hlk : List.lookup "properties" props with - | j
  · simp only [hlk] at hok
    cases hc : convertToolProps props with
    | error e => simp [hc, bind, Except.bind] at hok
    | ok gps =>
      simp only [hc, bind, Except.bind, pure, Except.pure, Except.ok.injEq] at hok
      exact hred gps hc hok.symm
  · cases j with
    | obj m => exact absurd hlk (hflat m)
    | null =>
      simp only [hlk] at hok
      cases hc : convertToolProps props with
      | error e => simp [hc, bind, Except.bind] at hok
      | ok gps =>
        simp only [hc, bind, Except.bind, pure, Except.pure, Except.ok.injEq] at hok
        exact hred gps hc hok.symm
    | bool b =>
      simp only [hlk] at hok
      cases hc : convertToolProps props with
      | error e => simp [hc, bind, Except.bind] at hok
      | ok gps =>
        simp only [hc, bind, Except.bind, pure, Except.pure, Except.ok.injEq] at hok
        exact hred gps hc hok.symm
    | num n =>
      simp only [hlk] at hok
      cases hc : convertToolProps props with
      | error e => simp [hc, bind, Except.bind] at hok
      | ok gps =>
        simp only [hc, bind, Except.bind, pure, Except.pure, Except.ok.injEq] at hok
        exact hred gps hc hok.symm
    | str s2 =>
      simp only [hlk] at hok
      cases hc : convertToolProps props with
      | error e => simp [hc, bind, Except.bind] at hok
      | ok gps =>
        simp only [hc, bind, Except.bind, pure, Except.pure, Except.ok.injEq] at hok
        exact hred gps hc hok.symm
    | arr elems =>
      simp only [hlk] at hok
      cases hc : convertToolProps props with
      | error e => simp [hc, bind, Except.bind] at hok
      | ok gps =>
        simp only [hc, bind, Except.bind, pure, Except.pure, Except.ok.injEq] at hok
        exact hred gps hc hok.symm


/-- C2 counterexample: a property definition with no type string converts in
the tool-schema path to a schema whose type is the zero value (unspecified),
not String. -/
theorem claim_C2_counterexample :
    ConvertProperty (Json.obj []) =
      .ok (GSchema.mk GenaiType.unspecified none [] none none Constraints.zero) ∧
    decide (GenaiType.unspecified = GenaiType.string) = false := by
  constructor
  · rw [ConvertProperty.eq_def]
    rfl
  · rfl

/-- C2 (amended): an unrecognized type string yields a String-typed schema in
the tool-schema path; an absent type string yields an unspecified-typed
schema there; in the response-schema path an unspecified type yields a
String-typed schema; none of these cases errors. -/
theorem claim_C2 (props : List (String × Json)) (t : String)
    (hunrec : t ∉ (["string", "number", "integer", "boolean", "array", "object"] : List String)) :
    (List.lookup "type" props = some (Json.str t) →
      ∃ g, ConvertProperty (Json.obj props) = .ok g ∧ g.type = GenaiType.string) ∧
    (List.lookup "type" props = none →
      ∃ g, ConvertProperty (Json.obj props) = .ok g ∧ g.type = GenaiType.unspecified) ∧
    (∀ s : GaiSchema, s.type = GaiType.unspecified →
      ∃ g, ConvertResponseSchema s = .ok g ∧ g.type = GenaiType.string) := by
  have h1 : t ≠ "string" := fun h => hunrec (by simp [h])
  have h2 : t ≠ "number" := fun h => hunrec (by simp [h])
  have h3 : t ≠ "integer" := fun h => hunrec (by simp [h])
  have h4 : t ≠ "boolean" := fun h => hunrec (by simp [h])
  have h5 : t ≠ "array" := fun h => hunrec (by simp [h])
  have h6 : t ≠ "object" := fun h => hunrec (by simp [h])
  refine ⟨?_, ?_, ?_⟩
  · intro hl
    rw [ConvertProperty.eq_def]
    simp only [hl]
    repeat' split
    all_goals
      first
        | (exact ⟨_, rfl, rfl⟩)
        | (simp_all; done)
  · intro hl
    rw [ConvertProperty.eq_def]
    simp only [hl]
    repeat' split
    all_goals
      first
        | (exact ⟨_, rfl, rfl⟩)
        | (simp_all; done)
  · intro s hty
    obtain ⟨g, hok, htype, -⟩ := respSpec s
    exact ⟨g, hok, by simp [htype, hty, specTypeMap]⟩

/-- C2 witness: the type string "custom" converts to a String-typed schema
in the tool-schema path. -/
theorem claim_C2_witness :
    ∃ g, ConvertProperty (Json.obj [("type", Json.str "custom")]) = .ok g ∧
      g.type = GenaiType.string :=
  (claim_C2 [("type", Json.str "custom")] "custom" (by decide)).1 rfl

/-- C5: a nil tool-schema properties value yields the empty object schema;
a map with a top-level "properties" map is treated as standard JSON-Schema,
converting the nested properties and extracting the top-level "required"
strings; a map without such a key converts every top-level key as a direct
property definition. -/
theorem claim_C5 :
    (∀ ts : ToolSchema, ts.properties = none →
      ConvertToolSchema ts = .ok (GSchema.mk .object (some []) [] none none .zero)) ∧
    (∀ (props propsMap : List (String × Json)) (gs : GSchema),
      List.lookup "properties" props = some (Json.obj propsMap) →
      ConvertToolSchema ⟨some (Json.obj props)⟩ = .ok gs →
      gs.type = .object ∧ gs.required = requiredOf props ∧
      ∃ gps, gs.properties = some gps ∧
        List.Forall₂ (fun p q => p.1 = q.1 ∧ ConvertProperty p.2 = .ok q.2) propsMap gps) ∧
    (∀ (props : List (String × Json)) (gs : GSchema),
      (∀ m, List.lookup "properties" props ≠ some (Json.obj m)) →
      ConvertToolSchema ⟨some (Json.obj props)⟩ = .ok gs →
      gs.type = .object ∧ gs.required = [] ∧
      ∃ gps, gs.properties = some gps ∧
        List.Forall₂ (fun p q => p.1 = q.1 ∧ ConvertProperty p.2 = .ok q.2) props gps) := by
  refine ⟨?_, ?_, ?_⟩
  · intro ts h
    obtain ⟨p⟩ := ts
    cases h
    rfl
  · intro props propsMap gs hlk hok
    exact toolSchemaWrappedSpec props propsMap gs hlk hok
  · intro props gs hflat hok
    exact toolSchemaFlatSpec props gs hflat hok

/-- C5 witness: the JSON-Schema shape with a "properties" wrapper and a
"required" list converts with the nested property extracted and the required
list filled. -/
theorem claim_C5_witness :
    (GSchema.mk .object
        (some [("file", GSchema.mk .string none [] none none
          { Constraints.zero with description := "File path" })])
        ["file"] none none .zero).type = GenaiType.object ∧
    (GSchema.mk .object
        (some [("file", GSchema.mk .string none [] none none
          { Constraints.zero with description := "File path" })])
        ["file"] none none .zero).required =
      requiredOf [("properties", Json.obj [("file", Json.obj
        [("type", Json.str "string"), ("description", Json.str "File path")])]),
        ("required", Json.arr [Json.str "file"])] ∧
    ∃ gps, (GSchema.mk .object
        (some [("file", GSchema.mk .string none [] none none
          { Constraints.zero with description := "File path" })])
        ["file"] none none .zero).properties = some gps ∧
      List.Forall₂ (fun p q => p.1 = q.1 ∧ ConvertProperty p.2 = .ok q.2)
        [("file", Json.obj [("type", Json.str "string"), ("description", Json.str "File path")])]
        gps :=
  (claim_C5).2.1
    [("properties", Json.obj [("file", Json.obj
      [("type", Json.str "string"), ("description", Json.str "File path")])]),
      ("required", Json.arr [Json.str "file"])]
    [("file", Json.obj [("type", Json.str "string"), ("description", Json.str "File path")])]
    (GSchema.mk .object
      (some [("file", GSchema.mk .string none [] none none
        { Constraints.zero with description := "File path" })])
      ["file"] none none .zero)
    rfl
    (by have hcp : convertToolProps [("file", Json.obj
          [("type", Json.str "string"), ("description", Json.str "File path")])] =
          .ok [("file", GSchema.mk .string none [] none none
            { Constraints.zero with description := "File path" })] := by
          rw [convertToolProps, ConvertProperty.eq_def]
          rfl
        rw [ConvertToolSchema]
        simp [hcp, List.lookup, requiredOf, bind, Except.bind, pure, Except.pure])

/-- C10: a tool schema in the direct flat-map format (no top-level
"properties" key holding a map) always converts with an empty required
list. -/
theorem claim_C10 (props : List (String × Json)) (gs : GSchema)
    (hflat : ∀ m, List.lookup "properties" props ≠ some (Json.obj m))
    (hok : ConvertToolSchema ⟨some (Json.obj props)⟩ = .ok gs) :
    gs.required = [] :=
  (toolSchemaFlatSpec props gs hflat hok).2.1

/-- C10 witness: a flat one-property schema converts with an empty required
list. -/
theorem claim_C10_witness :
    ConvertToolSchema ⟨some (Json.obj [("x", Json.obj [("type", Json.str "string")])])⟩ =
      .ok (GSchema.mk .object
        (some [("x", GSchema.mk .string none [] none none Constraints.zero)])
        [] none none .zero) ∧
    (GSchema.mk .object
        (some [("x", GSchema.mk .string none [] none none Constraints.zero)])
        [] none none .zero).required = ([] : List String) := by
  have hok : ConvertToolSchema ⟨some (Json.obj [("x", Json.obj [("type", Json.str "string")])])⟩ =
      .ok (GSchema.mk .object
        (some [("x", GSchema.mk .string none [] none none Constraints.zero)])
        [] none none .zero) := by
    have hcp : convertToolProps [("x", Json.obj [("type", Json.str "string")])] =
        .ok [("x", GSchema.mk .string none [] none none Constraints.zero)] := by
      rw [convertToolProps, ConvertProperty.eq_def]
      rfl
    rw [ConvertToolSchema]
    simp [hcp, List.lookup, bind, Except.bind, pure, Except.pure]
  exact ⟨hok, claim_C10 [("x", Json.obj [("type", Json.str "string")])] _ (by simp [List.lookup]) hok⟩


/-- C6: the response-schema converter always succeeds, maps the type by the
spec's table, preserves the required list for object schemas, leaves an
absent any-of list absent, copies every constraint field verbatim regardless
of the resolved type, and converts non-empty object properties pointwise
(preserving names and membership). -/
theorem claim_C6 (s : GaiSchema) :
    ∃ g, ConvertResponseSchema s = .ok g ∧
      g.type = specTypeMap s.type ∧
      (s.type = .object → g.required = s.required) ∧
      (s.anyOf = none → g.anyOf = none) ∧
      g.constraints.description = s.constraints.description ∧
      g.constraints.defaultValue = s.constraints.defaultValue ∧
      g.constraints.enum = s.constraints.enum ∧
      g.constraints.exampleValue = s.constraints.exampleValue ∧
      g.constraints.format = s.constraints.format ∧
      g.constraints.maxItems = s.constraints.maxItems ∧
      g.constraints.maxLength = s.constraints.maxLength ∧
      g.constraints.maxProperties = s.constraints.maxProperties ∧
      g.constraints.maximum = s.constraints.maximum ∧
      g.constraints.minItems = s.constraints.minItems ∧
      g.constraints.minLength = s.constraints.minLength ∧
      g.constraints.minProperties = s.constraints.minProperties ∧
      g.constraints.minimum = s.constraints.minimum ∧
      g.constraints.nullable = s.constraints.nullable ∧
      g.constraints.pattern = s.constraints.pattern ∧
      g.constraints.title = s.constraints.title ∧
      (s.type = .object → 0 < s.properties.length →
        ∃ gps, g.properties = some gps ∧
          List.Forall₂ (fun p q => p.1 = q.1 ∧ ConvertResponseSchema p.2 = .ok q.2)
            s.properties gps) := by
  obtain ⟨g, hok, htype, hcs, hreqO, hreqN, hanyN, hanyS, hitems, hprops⟩ := respSpec s
  refine ⟨g, hok, htype, hreqO, hanyN, by rw [hcs], by rw [hcs], by rw [hcs], by rw [hcs],
    by rw [hcs], by rw [hcs], by rw [hcs], by rw [hcs], by rw [hcs], by rw [hcs], by rw [hcs],
    by rw [hcs], by rw [hcs], by rw [hcs], by rw [hcs], by rw [hcs], ?_⟩
  intro hobj hlen
  obtain ⟨gps, hgps, hgp⟩ := hprops hobj hlen
  exact ⟨gps, hgp, respPropsForall s.properties gps hgps⟩

/-- C6 witness: a concrete object schema with a required list, no any-of
list and two constraint fields set converts with all of them preserved. -/
theorem claim_C6_witness :
    ∃ g, ConvertResponseSchema (GaiSchema.mk .object [] ["a"] none none
        { Constraints.zero with title := "T", nullable := some true }) = .ok g ∧
      g.type = GenaiType.object ∧ g.required = ["a"] ∧ g.anyOf = none ∧
      g.constraints.title = "T" ∧ g.constraints.nullable = some true := by
  obtain ⟨g, hok, htype, hreqO, hanyN, hdesc, hdef, henum, hex, hfmt, hmaxI, hmaxL, hmaxP,
    hmax, hminI, hminL, hminP, hmin, hnull, hpat, htitle, -⟩ :=
    claim_C6 (GaiSchema.mk .object [] ["a"] none none
      { Constraints.zero with title := "T", nullable := some true })
  exact ⟨g, hok, htype, hreqO rfl, hanyN rfl, htitle, hnull⟩

/-- C7: converting a tool list yields a single backend tool group with one
function declaration per tool in input order, names and descriptions copied
verbatim and parameters converted through the tool-schema path; if any
single tool's conversion fails, the whole batch fails with an error wrapped
with that tool's name, and no partial result is returned. -/
theorem claim_C7 (tools : List Tool) :
    (∀ ds, ConvertTools tools = .ok ds →
      ∃ decls, ds = [⟨decls⟩] ∧
        List.Forall₂ (fun tool d => d.name = tool.name ∧ d.description = tool.description ∧
          ConvertToolSchema tool.schema = .ok d.parameters) tools decls) ∧
    (∀ (pre : List Tool) (tool : Tool) (post : List Tool) (e : String),
      tools = pre ++ tool :: post →
      (∀ t2 ∈ pre, ∃ d, ConvertToolToFunction t2 = .ok d) →
      ConvertToolToFunction tool = .error e →
      ConvertTools tools = .error ("converting tool " ++ tool.name ++ ": " ++ e)) := by
  constructor
  · intro ds hok
    rw [ConvertTools] at hok
    cases hl : convertToolsLoop tools with
    | error e => simp [hl] at hok
    | ok decls =>
      simp only [hl, Except.ok.injEq] at hok
      subst hok
      refine ⟨decls, rfl, ?_⟩
      have hFor := toolsLoopForall tools decls hl
      exact hFor.imp fun {tool d} h => toolToFunctionSpec tool d h
  · intro pre tool post e heq hpre hfail
    subst heq
    rw [ConvertTools, toolsLoopFail pre tool post e hpre hfail]

/-- C7 witness: a batch of a convertible tool followed by a tool whose
schema value cannot canonicalize to a map fails as a whole with the error
wrapped in the offending tool's name. -/
theorem claim_C7_witness :
    ConvertTools [⟨"good", "gd", ⟨none⟩⟩, ⟨"bad", "bd", ⟨some (Json.num 5)⟩⟩] =
      .error ("converting tool " ++ "bad" ++ ": " ++
        ("converting schema: " ++ "unmarshaling properties")) :=
  (claim_C7 [⟨"good", "gd", ⟨none⟩⟩, ⟨"bad", "bd", ⟨some (Json.num 5)⟩⟩]).2
    [⟨"good", "gd", ⟨none⟩⟩] ⟨"bad", "bd", ⟨some (Json.num 5)⟩⟩ [] "converting schema: unmarshaling properties"
    rfl
    (by intro t2 ht2
        simp only [List.mem_singleton] at ht2
        subst ht2
        exact ⟨⟨"good", "gd", GSchema.mk .object (some []) [] none none .zero⟩, rfl⟩)
    rfl

end GaiGoogle
